import Mathlib

/-!
Verification of the options analytics engine of the `autoinvest` repository.

The pricing kernel (`src/options_calculator.py`) is embedded over the reals:
Python floats become `ℝ`, `scipy.stats.norm.cdf`/`norm.pdf` become the
standard normal cumulative distribution function and density defined below,
and `np.log`, `np.exp`, `np.sqrt` become `Real.log`, `Real.exp`, `Real.sqrt`.

The tabular components (`src/data_fetcher.py::validate_option_data` and the
screening pipeline of `src/pages/1_单股票期权分析.py` /
`src/pages/3_Sell_Call策略.py`) are embedded over lists of records with
exact rational fields, so that concrete tables can be evaluated by `decide`.
-/

open MeasureTheory

/-- Density of the standard normal distribution, the mathematical function
computed by `scipy.stats.norm.pdf`. -/
noncomputable def normPdf (x : ℝ) : ℝ :=
  Real.exp (-(x ^ 2) / 2) / Real.sqrt (2 * Real.pi)

/-- Cumulative distribution function of the standard normal distribution,
the mathematical function computed by `scipy.stats.norm.cdf`. -/
noncomputable def normCdf (x : ℝ) : ℝ :=
  ∫ t in Set.Iic x, normPdf t

theorem normPdf_nonneg (x : ℝ) : 0 ≤ normPdf x :=
  div_nonneg (Real.exp_pos _).le (Real.sqrt_nonneg _)

theorem normPdf_neg (x : ℝ) : normPdf (-x) = normPdf x := by
  unfold normPdf
  rw [neg_pow]
  norm_num

theorem normPdf_eq_gauss (x : ℝ) :
    normPdf x = Real.exp (-(1 / 2 : ℝ) * x ^ 2) * (Real.sqrt (2 * Real.pi))⁻¹ := by
  unfold normPdf
  rw [div_eq_mul_inv]
  congr 2
  ring

theorem integrable_normPdf : Integrable normPdf := by
  have h : normPdf = fun x => Real.exp (-(1 / 2 : ℝ) * x ^ 2) * (Real.sqrt (2 * Real.pi))⁻¹ :=
    funext normPdf_eq_gauss
  rw [h]
  exact (integrable_exp_neg_mul_sq (by norm_num)).mul_const _

theorem integral_normPdf : ∫ x, normPdf x = 1 := by
  have h : ∫ x, normPdf x
      = (∫ x, Real.exp (-(1 / 2 : ℝ) * x ^ 2)) * (Real.sqrt (2 * Real.pi))⁻¹ := by
    rw [← integral_mul_right]
    exact integral_congr_ae (Filter.Eventually.of_forall normPdf_eq_gauss)
  rw [h, integral_gaussian, show (Real.pi / (1 / 2) : ℝ) = 2 * Real.pi by ring]
  exact mul_inv_cancel₀ (Real.sqrt_ne_zero'.mpr (by positivity))

theorem normCdf_nonneg (x : ℝ) : 0 ≤ normCdf x :=
  setIntegral_nonneg measurableSet_Iic fun t _ => normPdf_nonneg t

theorem normCdf_le_one (x : ℝ) : normCdf x ≤ 1 := by
  have h := setIntegral_le_integral (s := Set.Iic x) integrable_normPdf
    (Filter.Eventually.of_forall normPdf_nonneg)
  rw [integral_normPdf] at h
  exact h

theorem normCdf_neg_eq_integral_Ici (x : ℝ) :
    normCdf (-x) = ∫ t in Set.Ici x, normPdf t := by
  rw [normCdf, ← integral_indicator measurableSet_Iic, ← integral_indicator measurableSet_Ici]
  have h1 : (∫ u, (Set.Iic (-x)).indicator normPdf u)
      = ∫ u, (Set.Iic (-x)).indicator normPdf (-u) :=
    (integral_neg_eq_self _ _).symm
  have h2 : ∀ u : ℝ, (Set.Iic (-x)).indicator normPdf (-u)
      = (Set.Ici x).indicator normPdf u := by
    intro u
    unfold Set.indicator
    simp only [Set.mem_Iic, Set.mem_Ici]
    by_cases h : x ≤ u
    · rw [if_pos (by linarith), if_pos h, normPdf_neg]
    · rw [if_neg (fun hh => h (by linarith)), if_neg h]
  rw [h1]
  exact integral_congr_ae (Filter.Eventually.of_forall h2)

theorem normCdf_add_normCdf_neg (x : ℝ) : normCdf x + normCdf (-x) = 1 := by
  rw [normCdf_neg_eq_integral_Ici, integral_Ici_eq_integral_Ioi, normCdf,
    intervalIntegral.integral_Iic_add_Ioi integrable_normPdf.integrableOn
      integrable_normPdf.integrableOn,
    integral_normPdf]

/-- Change of variables `t = u + c` for an integral over a left ray. -/
theorem setIntegral_Iic_shift (f : ℝ → ℝ) (b c : ℝ) :
    ∫ t in Set.Iic b, f t = ∫ u in Set.Iic (b - c), f (u + c) := by
  rw [← integral_indicator measurableSet_Iic, ← integral_indicator measurableSet_Iic]
  have h1 : (∫ t, (Set.Iic b).indicator f t)
      = ∫ u, (Set.Iic b).indicator f (u + c) :=
    (integral_add_right_eq_self _ c).symm
  have h2 : ∀ u : ℝ, (Set.Iic b).indicator f (u + c)
      = (Set.Iic (b - c)).indicator (fun v => f (v + c)) u := by
    intro u
    unfold Set.indicator
    simp only [Set.mem_Iic]
    by_cases h : u + c ≤ b
    · rw [if_pos h, if_pos (by linarith)]
    · rw [if_neg h, if_neg (fun hh => h (by linarith))]
  rw [h1]
  exact integral_congr_ae (Filter.Eventually.of_forall h2)

theorem normPdf_add (u c : ℝ) :
    normPdf (u + c) = Real.exp (-(c * u) - c ^ 2 / 2) * normPdf u := by
  unfold normPdf
  rw [← mul_div_assoc, ← Real.exp_add]
  congr 2
  ring

theorem integrable_exp_mul_normPdf (k : ℝ) :
    Integrable fun u => Real.exp (k * u) * normPdf u := by
  have h : (fun u => Real.exp (k * u) * normPdf u)
      = fun u => Real.exp (k ^ 2 / 2) * normPdf (u - k) := by
    funext u
    unfold normPdf
    rw [← mul_div_assoc, ← mul_div_assoc, ← Real.exp_add, ← Real.exp_add]
    congr 2
    ring
  rw [h]
  exact (integrable_normPdf.comp_sub_right k).const_mul _

/-! ### Pricing kernel of `OptionsCalculator` (`src/options_calculator.py`) -/

/-- Option type; `OptionsCalculator` methods take `option_type: str = 'put'`
and treat any string other than `'put'` as a call. -/
inductive OptionType where
  | put : OptionType
  | call : OptionType
deriving DecidableEq, Repr

/-- The `d1` term computed inside `black_scholes_put` / `black_scholes_call`
and in the `T > 0` branch of `calculate_d1_d2`:
`(np.log(S / K) + (r + 0.5 * sigma**2) * T) / (sigma * np.sqrt(T))`. -/
noncomputable def bs_d1 (S K T r sigma : ℝ) : ℝ :=
  (Real.log (S / K) + (r + 0.5 * sigma ^ 2) * T) / (sigma * Real.sqrt T)

/-- The `d2` term: `d1 - sigma * np.sqrt(T)`. -/
noncomputable def bs_d2 (S K T r sigma : ℝ) : ℝ :=
  bs_d1 S K T r sigma - sigma * Real.sqrt T

/-- `OptionsCalculator.calculate_d1_d2`: returns `(0, 0)` when `T <= 0`,
otherwise the pair `(d1, d2)`. -/
noncomputable def calculate_d1_d2 (S K T r sigma : ℝ) : ℝ × ℝ :=
  if T ≤ 0 then (0, 0) else (bs_d1 S K T r sigma, bs_d2 S K T r sigma)

/-- `OptionsCalculator.black_scholes_put`: intrinsic value `max(K - S, 0)`
when `T <= 0`, otherwise the closed form
`K * np.exp(-r * T) * norm.cdf(-d2) - S * norm.cdf(-d1)` floored at 0. -/
noncomputable def black_scholes_put (S K T r sigma : ℝ) : ℝ :=
  if T ≤ 0 then max (K - S) 0
  else max (K * Real.exp (-r * T) * normCdf (-bs_d2 S K T r sigma)
    - S * normCdf (-bs_d1 S K T r sigma)) 0

/-- `OptionsCalculator.black_scholes_call`: intrinsic value `max(S - K, 0)`
when `T <= 0`, otherwise the closed form
`S * norm.cdf(d1) - K * np.exp(-r * T) * norm.cdf(d2)` floored at 0. -/
noncomputable def black_scholes_call (S K T r sigma : ℝ) : ℝ :=
  if T ≤ 0 then max (S - K) 0
  else max (S * normCdf (bs_d1 S K T r sigma)
    - K * Real.exp (-r * T) * normCdf (bs_d2 S K T r sigma)) 0

/-- `OptionsCalculator.calculate_delta_put`:
`-1 if S < K else 0` when `T <= 0`, otherwise `-norm.cdf(-d1)`. -/
noncomputable def calculate_delta_put (S K T r sigma : ℝ) : ℝ :=
  if T ≤ 0 then (if S < K then -1 else 0)
  else -normCdf (-(calculate_d1_d2 S K T r sigma).1)

/-- `OptionsCalculator.calculate_delta_call`:
`1 if S > K else 0` when `T <= 0`, otherwise `norm.cdf(d1)`. -/
noncomputable def calculate_delta_call (S K T r sigma : ℝ) : ℝ :=
  if T ≤ 0 then (if K < S then 1 else 0)
  else normCdf (calculate_d1_d2 S K T r sigma).1

/-- `OptionsCalculator.calculate_theta_put`: `0` when `T <= 0`, otherwise
`(-S * norm.pdf(d1) * sigma / (2 * np.sqrt(T)) - r * K * np.exp(-r * T) * norm.cdf(-d2)) / 365`. -/
noncomputable def calculate_theta_put (S K T r sigma : ℝ) : ℝ :=
  if T ≤ 0 then 0
  else (-S * normPdf (calculate_d1_d2 S K T r sigma).1 * sigma / (2 * Real.sqrt T)
    - r * K * Real.exp (-r * T) * normCdf (-(calculate_d1_d2 S K T r sigma).2)) / 365

/-- `OptionsCalculator.calculate_theta_call`: `0` when `T <= 0`, otherwise
`(-S * norm.pdf(d1) * sigma / (2 * np.sqrt(T)) + r * K * np.exp(-r * T) * norm.cdf(d2)) / 365`. -/
noncomputable def calculate_theta_call (S K T r sigma : ℝ) : ℝ :=
  if T ≤ 0 then 0
  else (-S * normPdf (calculate_d1_d2 S K T r sigma).1 * sigma / (2 * Real.sqrt T)
    + r * K * Real.exp (-r * T) * normCdf (calculate_d1_d2 S K T r sigma).2) / 365

/-- `OptionsCalculator.calculate_assignment_probability`, with Python's
failure paths made explicit. For `T <= 0` it returns the in-the-money
indicator (`1.0 if S <= K else 0.0` for puts, `1.0 if S >= K else 0.0` for
calls). For `T > 0` the method evaluates `d1 = (np.log(S / K) + (r + 0.5 *
sigma**2) * T) / (sigma * np.sqrt(T))` and `d2 = d1 - sigma * np.sqrt(T)`:
- `S / K` is Python float division and raises `ZeroDivisionError` when
  `K = 0`; the exception propagates (modelled `none`);
- `np.log` of a negative quotient is NaN (the numpy warning is suppressed by
  `warnings.filterwarnings('ignore')`), and NaN propagates through the
  arithmetic and `norm.cdf` to the returned value (modelled `some none`);
- `np.log(0.0)` is `-inf`; the numerator stays `-inf`, so `d2` is `-inf`
  when `sigma * np.sqrt(T) >= 0` (IEEE `(-inf)/+0.0 = -inf`) and `+inf`
  when it is negative, and `norm.cdf(±inf)` is `1.0`/`0.0`;
- when `S / K > 0` and `sigma = 0`, the numpy-float numerator
  `np.log(S/K) + r*T` is divided by `+0.0`: the quotient is `±inf` by its
  sign (no raise), or NaN when the numerator is also zero;
- otherwise all quantities are finite reals and the result is
  `norm.cdf(-d2)` for puts, `norm.cdf(d2)` for calls (`some (some v)`). -/
noncomputable def calculate_assignment_probability
    (S K T r sigma : ℝ) (option_type : OptionType) : Option (Option ℝ) :=
  if T ≤ 0 then
    some (some (match option_type with
      | .put => if S ≤ K then 1 else 0
      | .call => if K ≤ S then 1 else 0))
  else if K = 0 then none
  else if S / K < 0 then some none
  else if S / K = 0 then
    some (some (match option_type with
      | .put => if 0 ≤ sigma then 1 else 0
      | .call => if 0 ≤ sigma then 0 else 1))
  else if sigma = 0 then
    if Real.log (S / K) + r * T = 0 then some none
    else
      some (some (match option_type with
        | .put => if Real.log (S / K) + r * T < 0 then 1 else 0
        | .call => if Real.log (S / K) + r * T < 0 then 0 else 1))
  else
    some (some (match option_type with
      | .put => normCdf (-(calculate_d1_d2 S K T r sigma).2)
      | .call => normCdf (calculate_d1_d2 S K T r sigma).2))

/-! ### Nonnegativity of the raw closed-form prices and put-call parity -/

/-- The classical exponent identity `S·e^(−c·d2 − c²/2) = K·e^(−rT)` with
`c = σ√T`, which links the two lognormal tails. -/
theorem bs_key (S K T r sigma : ℝ) (hS : 0 < S) (hK : 0 < K) (hT : 0 < T)
    (hsig : 0 < sigma) :
    S * Real.exp (-(sigma * Real.sqrt T * bs_d2 S K T r sigma)
      - (sigma * Real.sqrt T) ^ 2 / 2) = K * Real.exp (-r * T) := by
  have hst : 0 < sigma * Real.sqrt T := mul_pos hsig (Real.sqrt_pos.mpr hT)
  have hsq : (sigma * Real.sqrt T) ^ 2 = sigma ^ 2 * T := by
    rw [mul_pow, Real.sq_sqrt hT.le]
  have hd1 : sigma * Real.sqrt T * bs_d1 S K T r sigma
      = Real.log (S / K) + (r + 0.5 * sigma ^ 2) * T := by
    rw [bs_d1, mul_comm, div_mul_cancel₀ _ (ne_of_gt hst)]
  have hcc : sigma * Real.sqrt T * (sigma * Real.sqrt T) = sigma ^ 2 * T := by
    rw [← sq]; exact hsq
  have hd2 : sigma * Real.sqrt T * bs_d2 S K T r sigma
      = Real.log (S / K) + r * T - sigma ^ 2 * T / 2 := by
    rw [bs_d2, mul_sub, hd1, hcc]; ring
  rw [show -(sigma * Real.sqrt T * bs_d2 S K T r sigma) - (sigma * Real.sqrt T) ^ 2 / 2
      = -Real.log (S / K) + -r * T from by rw [hd2, hsq]; ring]
  rw [Real.exp_add, Real.exp_neg, Real.exp_log (div_pos hS hK), inv_div]
  field_simp

/-- The raw (un-floored) Black-Scholes put value is nonnegative: it is the
integral of a pointwise-nonnegative function over the lower tail. -/
theorem put_raw_nonneg (S K T r sigma : ℝ) (hS : 0 < S) (hK : 0 < K) (hT : 0 < T)
    (hsig : 0 < sigma) :
    0 ≤ K * Real.exp (-r * T) * normCdf (-bs_d2 S K T r sigma)
      - S * normCdf (-bs_d1 S K T r sigma) := by
  set c := sigma * Real.sqrt T with hc_def
  have hc : 0 < c := mul_pos hsig (Real.sqrt_pos.mpr hT)
  have hshift : normCdf (-bs_d1 S K T r sigma)
      = ∫ u in Set.Iic (-bs_d2 S K T r sigma),
          Real.exp (c * u - c ^ 2 / 2) * normPdf u := by
    rw [normCdf, setIntegral_Iic_shift normPdf (-bs_d1 S K T r sigma) (-c),
      show -bs_d1 S K T r sigma - -c = -bs_d2 S K T r sigma from by rw [bs_d2, hc_def]; ring]
    apply setIntegral_congr_fun measurableSet_Iic
    intro u _
    show normPdf (u + -c) = Real.exp (c * u - c ^ 2 / 2) * normPdf u
    rw [normPdf_add u (-c), show -(-c * u) - (-c) ^ 2 / 2 = c * u - c ^ 2 / 2 from by ring]
  have hint2 : (fun u => S * (Real.exp (c * u - c ^ 2 / 2) * normPdf u))
      = fun u => S * Real.exp (-(c ^ 2) / 2) * (Real.exp (c * u) * normPdf u) := by
    funext u
    rw [show c * u - c ^ 2 / 2 = c * u + -(c ^ 2) / 2 from by ring, Real.exp_add]
    ring
  have hrepr : K * Real.exp (-r * T) * normCdf (-bs_d2 S K T r sigma)
      - S * normCdf (-bs_d1 S K T r sigma)
      = ∫ u in Set.Iic (-bs_d2 S K T r sigma),
          (K * Real.exp (-r * T) * normPdf u
            - S * (Real.exp (c * u - c ^ 2 / 2) * normPdf u)) := by
    rw [hshift, normCdf, eq_comm, integral_sub
        ((integrable_normPdf.const_mul _).integrableOn)
        (by rw [hint2]; exact ((integrable_exp_mul_normPdf c).const_mul _).integrableOn),
      integral_mul_left, integral_mul_left]
  rw [hrepr]
  apply setIntegral_nonneg measurableSet_Iic
  intro u hu
  rw [Set.mem_Iic] at hu
  have hkey := bs_key S K T r sigma hS hK hT hsig
  rw [← hc_def] at hkey
  have hmono : S * Real.exp (c * u - c ^ 2 / 2) ≤ K * Real.exp (-r * T) := by
    calc S * Real.exp (c * u - c ^ 2 / 2)
        ≤ S * Real.exp (-(c * bs_d2 S K T r sigma) - c ^ 2 / 2) := by
          apply mul_le_mul_of_nonneg_left _ hS.le
          apply Real.exp_le_exp.mpr
          have := mul_le_mul_of_nonneg_left hu hc.le
          linarith
      _ = K * Real.exp (-r * T) := hkey
  have hφ := normPdf_nonneg u
  have hfin := mul_le_mul_of_nonneg_right hmono hφ
  rw [show S * (Real.exp (c * u - c ^ 2 / 2) * normPdf u)
      = S * Real.exp (c * u - c ^ 2 / 2) * normPdf u from by ring]
  linarith

/-- The raw (un-floored) Black-Scholes call value is nonnegative. -/
theorem call_raw_nonneg (S K T r sigma : ℝ) (hS : 0 < S) (hK : 0 < K) (hT : 0 < T)
    (hsig : 0 < sigma) :
    0 ≤ S * normCdf (bs_d1 S K T r sigma)
      - K * Real.exp (-r * T) * normCdf (bs_d2 S K T r sigma) := by
  set c := sigma * Real.sqrt T with hc_def
  have hc : 0 < c := mul_pos hsig (Real.sqrt_pos.mpr hT)
  have hshift : normCdf (bs_d1 S K T r sigma)
      = ∫ u in Set.Iic (bs_d2 S K T r sigma),
          Real.exp (-(c * u) - c ^ 2 / 2) * normPdf u := by
    rw [normCdf, setIntegral_Iic_shift normPdf (bs_d1 S K T r sigma) c,
      show bs_d1 S K T r sigma - c = bs_d2 S K T r sigma from by rw [bs_d2, hc_def]]
    apply setIntegral_congr_fun measurableSet_Iic
    intro u _
    show normPdf (u + c) = Real.exp (-(c * u) - c ^ 2 / 2) * normPdf u
    rw [normPdf_add u c]
  have hint2 : (fun u => S * (Real.exp (-(c * u) - c ^ 2 / 2) * normPdf u))
      = fun u => S * Real.exp (-(c ^ 2) / 2) * (Real.exp (-c * u) * normPdf u) := by
    funext u
    rw [show -(c * u) - c ^ 2 / 2 = -c * u + -(c ^ 2) / 2 from by ring, Real.exp_add]
    ring
  have hrepr : S * normCdf (bs_d1 S K T r sigma)
      - K * Real.exp (-r * T) * normCdf (bs_d2 S K T r sigma)
      = ∫ u in Set.Iic (bs_d2 S K T r sigma),
          (S * (Real.exp (-(c * u) - c ^ 2 / 2) * normPdf u)
            - K * Real.exp (-r * T) * normPdf u) := by
    rw [hshift, eq_comm, integral_sub
        (by rw [hint2]; exact ((integrable_exp_mul_normPdf (-c)).const_mul _).integrableOn)
        ((integrable_normPdf.const_mul _).integrableOn),
      integral_mul_left, integral_mul_left]
    rw [normCdf]
  rw [hrepr]
  apply setIntegral_nonneg measurableSet_Iic
  intro u hu
  rw [Set.mem_Iic] at hu
  have hkey := bs_key S K T r sigma hS hK hT hsig
  rw [← hc_def] at hkey
  have hmono : K * Real.exp (-r * T) ≤ S * Real.exp (-(c * u) - c ^ 2 / 2) := by
    calc K * Real.exp (-r * T)
        = S * Real.exp (-(c * bs_d2 S K T r sigma) - c ^ 2 / 2) := hkey.symm
      _ ≤ S * Real.exp (-(c * u) - c ^ 2 / 2) := by
          apply mul_le_mul_of_nonneg_left _ hS.le
          apply Real.exp_le_exp.mpr
          have := mul_le_mul_of_nonneg_left hu hc.le
          linarith
  have hφ := normPdf_nonneg u
  have hfin := mul_le_mul_of_nonneg_right hmono hφ
  rw [show S * (Real.exp (-(c * u) - c ^ 2 / 2) * normPdf u)
      = S * Real.exp (-(c * u) - c ^ 2 / 2) * normPdf u from by ring]
  linarith

/-- C1. Put-call parity: for `S, K, T > 0`, `r ≥ 0`, `sigma > 0`, the call
price minus the put price returned by the pricing kernel equals
`S − K·e^(−rT)` (exactly, in the real-number model). -/
theorem put_call_parity (S K T r sigma : ℝ) (hS : 0 < S) (hK : 0 < K)
    (hT : 0 < T) (hr : 0 ≤ r) (hsig : 0 < sigma) :
    black_scholes_call S K T r sigma - black_scholes_put S K T r sigma
      = S - K * Real.exp (-r * T) := by
  have hT' : ¬T ≤ 0 := not_le.mpr hT
  rw [black_scholes_call, black_scholes_put, if_neg hT', if_neg hT',
    max_eq_left (call_raw_nonneg S K T r sigma hS hK hT hsig),
    max_eq_left (put_raw_nonneg S K T r sigma hS hK hT hsig)]
  have h1 := normCdf_add_normCdf_neg (bs_d1 S K T r sigma)
  have h2 := normCdf_add_normCdf_neg (bs_d2 S K T r sigma)
  linear_combination S * h1 - K * Real.exp (-r * T) * h2

/-- Witness for C1 at `S = 2, K = 1, T = 1, r = 0, sigma = 1`. -/
theorem put_call_parity_witness :
    black_scholes_call 2 1 1 0 1 - black_scholes_put 2 1 1 0 1
      = 2 - 1 * Real.exp (-0 * 1) :=
  put_call_parity 2 1 1 0 1 (by norm_num) (by norm_num) (by norm_num)
    (by norm_num) (by norm_num)

/-- C2. Expiry edge policy: at `T ≤ 0` both pricing functions return exactly
the intrinsic value, and for `T > 0` the returned price is floored at 0. -/
theorem bs_price_edge_policy (S K T r sigma : ℝ) :
    (T ≤ 0 → black_scholes_put S K T r sigma = max (K - S) 0
      ∧ black_scholes_call S K T r sigma = max (S - K) 0)
    ∧ (0 < T → 0 ≤ black_scholes_put S K T r sigma
      ∧ 0 ≤ black_scholes_call S K T r sigma) := by
  constructor
  · intro h
    rw [black_scholes_put, black_scholes_call, if_pos h, if_pos h]
    exact ⟨rfl, rfl⟩
  · intro h
    rw [black_scholes_put, black_scholes_call, if_neg (not_le.mpr h),
      if_neg (not_le.mpr h)]
    exact ⟨le_max_right _ _, le_max_right _ _⟩

/-- Witness for C2: intrinsic value at `T = 0`, nonnegativity at `T = 1`. -/
theorem bs_price_edge_policy_witness :
    (black_scholes_put 1 2 0 0 1 = max ((2 : ℝ) - 1) 0
      ∧ black_scholes_call 1 2 0 0 1 = max ((1 : ℝ) - 2) 0)
    ∧ (0 ≤ black_scholes_put 1 2 1 0 1 ∧ 0 ≤ black_scholes_call 1 2 1 0 1) :=
  ⟨(bs_price_edge_policy 1 2 0 0 1).1 le_rfl,
    (bs_price_edge_policy 1 2 1 0 1).2 (by norm_num)⟩

/-! ### Greeks: theta carry term and delta bounds -/

/-- C5 evaluation. In the code the risk-free carry term enters with `+` for
the call and `−` for the put, so the per-year theta difference
`365·(theta_call − theta_put)` equals `+r·K·e^(−rT)` — the opposite of the
`−r·K·e^(−rT)` demanded by differentiating put-call parity in `T`. -/
theorem theta_carry_term_sign (S K T r sigma : ℝ) (hT : 0 < T)
    (hrK : 0 < r * K) :
    365 * (calculate_theta_call S K T r sigma - calculate_theta_put S K T r sigma)
      = r * K * Real.exp (-r * T)
    ∧ 365 * (calculate_theta_call S K T r sigma - calculate_theta_put S K T r sigma)
      ≠ -(r * K * Real.exp (-r * T)) := by
  have hT' : ¬T ≤ 0 := not_le.mpr hT
  have hd := normCdf_add_normCdf_neg ((calculate_d1_d2 S K T r sigma).2)
  have heq : 365 * (calculate_theta_call S K T r sigma
      - calculate_theta_put S K T r sigma) = r * K * Real.exp (-r * T) := by
    rw [calculate_theta_call, calculate_theta_put, if_neg hT', if_neg hT']
    linear_combination r * K * Real.exp (-r * T) * hd
  refine ⟨heq, ?_⟩
  rw [heq]
  have hpos : 0 < r * K * Real.exp (-r * T) := mul_pos hrK (Real.exp_pos _)
  intro hcontra
  linarith

/-- Witness for `theta_carry_term_sign` at `S=100, K=100, T=1, r=1/20, sigma=1/5`. -/
theorem theta_carry_term_sign_witness :
    365 * (calculate_theta_call 100 100 1 (1 / 20) (1 / 5)
        - calculate_theta_put 100 100 1 (1 / 20) (1 / 5))
      = 1 / 20 * 100 * Real.exp (-(1 / 20) * 1)
    ∧ 365 * (calculate_theta_call 100 100 1 (1 / 20) (1 / 5)
        - calculate_theta_put 100 100 1 (1 / 20) (1 / 5))
      ≠ -(1 / 20 * 100 * Real.exp (-(1 / 20) * 1)) :=
  theta_carry_term_sign 100 100 1 (1 / 20) (1 / 5) (by norm_num) (by norm_num)

/-- C6. Delta bounds: for all valid inputs the call delta lies in `[0, 1]`
and the put delta in `[−1, 0]`; at `T = 0` they are the sign indicators
(`1/0` for the call by `S > K`, `0/−1` for the put by `S < K`). -/
theorem delta_bounds (S K T r sigma : ℝ) (hS : 0 < S) (hK : 0 < K)
    (hT : 0 ≤ T) (hr : 0 ≤ r) (hsig : 0 < sigma) :
    (0 ≤ calculate_delta_call S K T r sigma ∧ calculate_delta_call S K T r sigma ≤ 1)
    ∧ (-1 ≤ calculate_delta_put S K T r sigma ∧ calculate_delta_put S K T r sigma ≤ 0)
    ∧ (T = 0 → calculate_delta_call S K T r sigma = (if K < S then 1 else 0)
        ∧ calculate_delta_put S K T r sigma = (if S < K then -1 else 0)) := by
  refine ⟨?_, ?_, ?_⟩
  · rw [calculate_delta_call]
    by_cases h : T ≤ 0
    · rw [if_pos h]
      constructor <;> (split <;> norm_num)
    · rw [if_neg h]
      exact ⟨normCdf_nonneg _, normCdf_le_one _⟩
  · rw [calculate_delta_put]
    by_cases h : T ≤ 0
    · rw [if_pos h]
      constructor <;> (split <;> norm_num)
    · rw [if_neg h]
      constructor
      · have := normCdf_le_one (-(calculate_d1_d2 S K T r sigma).1)
        linarith
      · have := normCdf_nonneg (-(calculate_d1_d2 S K T r sigma).1)
        linarith
  · intro h
    rw [calculate_delta_call, calculate_delta_put, if_pos h.le, if_pos h.le]
    exact ⟨rfl, rfl⟩

/-- Witness for C6 at `S = 2, K = 1, T = 0, r = 0, sigma = 1`. -/
theorem delta_bounds_witness :
    ((0 ≤ calculate_delta_call 2 1 0 0 1 ∧ calculate_delta_call 2 1 0 0 1 ≤ 1)
    ∧ (-1 ≤ calculate_delta_put 2 1 0 0 1 ∧ calculate_delta_put 2 1 0 0 1 ≤ 0)
    ∧ (calculate_delta_call 2 1 0 0 1 = (if (1 : ℝ) < 2 then 1 else 0)
        ∧ calculate_delta_put 2 1 0 0 1 = (if (2 : ℝ) < 1 then -1 else 0))) := by
  have h := delta_bounds 2 1 0 0 1 (by norm_num) (by norm_num) le_rfl
    (by norm_num) (by norm_num)
  exact ⟨h.1, h.2.1, h.2.2 rfl⟩

/-- C10 (amended). Restricted to `S > 0`, `K > 0` and `sigma ≠ 0` the method
neither raises nor returns NaN: at `T ≤ 0` it returns exactly the
deterministic in-the-money indicator (so exactly 0 or 1), at `T > 0` it
returns the closed-form tail probability, and every value it returns lies in
`[0, 1]`. -/
theorem assignment_probability_bounds (S K T r sigma : ℝ)
    (option_type : OptionType) (hS : 0 < S) (hK : 0 < K) (hsig : sigma ≠ 0) :
    (T ≤ 0 → calculate_assignment_probability S K T r sigma option_type
        = some (some (match option_type with
           | .put => if S ≤ K then 1 else 0
           | .call => if K ≤ S then 1 else 0)))
    ∧ (0 < T → calculate_assignment_probability S K T r sigma option_type
        = some (some (match option_type with
           | .put => normCdf (-(calculate_d1_d2 S K T r sigma).2)
           | .call => normCdf (calculate_d1_d2 S K T r sigma).2)))
    ∧ (∀ p : ℝ, calculate_assignment_probability S K T r sigma option_type
        = some (some p) → 0 ≤ p ∧ p ≤ 1) := by
  have hq : 0 < S / K := div_pos hS hK
  have hKne : ¬K = 0 := hK.ne'
  have h1 : ¬S / K < 0 := not_lt.mpr hq.le
  have h2 : ¬S / K = 0 := hq.ne'
  cases option_type with
  | put =>
    by_cases hT : T ≤ 0
    · refine ⟨fun _ => ?_, fun hpos => absurd hT (not_le.mpr hpos), fun p hp => ?_⟩
      · rw [calculate_assignment_probability, if_pos hT]
      · rw [calculate_assignment_probability, if_pos hT] at hp
        simp only [Option.some.injEq] at hp
        subst hp
        refine ⟨?_, ?_⟩ <;> (by_cases hsk : S ≤ K <;> simp [hsk])
    · refine ⟨fun hh => absurd hh hT, fun _ => ?_, fun p hp => ?_⟩
      · rw [calculate_assignment_probability, if_neg hT, if_neg hKne, if_neg h1,
          if_neg h2, if_neg hsig]
      · rw [calculate_assignment_probability, if_neg hT, if_neg hKne, if_neg h1,
          if_neg h2, if_neg hsig] at hp
        simp only [Option.some.injEq] at hp
        subst hp
        exact ⟨normCdf_nonneg _, normCdf_le_one _⟩
  | call =>
    by_cases hT : T ≤ 0
    · refine ⟨fun _ => ?_, fun hpos => absurd hT (not_le.mpr hpos), fun p hp => ?_⟩
      · rw [calculate_assignment_probability, if_pos hT]
      · rw [calculate_assignment_probability, if_pos hT] at hp
        simp only [Option.some.injEq] at hp
        subst hp
        refine ⟨?_, ?_⟩ <;> (by_cases hks : K ≤ S <;> simp [hks])
    · refine ⟨fun hh => absurd hh hT, fun _ => ?_, fun p hp => ?_⟩
      · rw [calculate_assignment_probability, if_neg hT, if_neg hKne, if_neg h1,
          if_neg h2, if_neg hsig]
      · rw [calculate_assignment_probability, if_neg hT, if_neg hKne, if_neg h1,
          if_neg h2, if_neg hsig] at hp
        simp only [Option.some.injEq] at hp
        subst hp
        exact ⟨normCdf_nonneg _, normCdf_le_one _⟩

/-- Witness for C10 (amended) at `S = 1, K = 2, sigma = 1` for a put, at
`T = 0` (indicator) and `T = 1` (closed form with its bounds). -/
theorem assignment_probability_bounds_witness :
    calculate_assignment_probability 1 2 0 0 1 .put
      = some (some (if (1 : ℝ) ≤ 2 then 1 else 0))
    ∧ calculate_assignment_probability 1 2 1 0 1 .put
      = some (some (normCdf (-(calculate_d1_d2 1 2 1 0 1).2)))
    ∧ (0 ≤ normCdf (-(calculate_d1_d2 1 2 1 0 1).2)
      ∧ normCdf (-(calculate_d1_d2 1 2 1 0 1).2) ≤ 1) := by
  have h0 := assignment_probability_bounds 1 2 0 0 1 .put (by norm_num)
    (by norm_num) (by norm_num)
  have h1 := assignment_probability_bounds 1 2 1 0 1 .put (by norm_num)
    (by norm_num) (by norm_num)
  exact ⟨h0.1 le_rfl, h1.2.1 (by norm_num), h1.2.2 _ (h1.2.1 (by norm_num))⟩

/-- C10 counterexample: the claim quantifies over any `S, K`, but at `K = 0`
the Python float division `S / K` raises `ZeroDivisionError`, and at
`S = -1, K = 1` the method returns `norm.cdf(NaN) = NaN` — in neither case
is a value in `[0, 1]` returned. -/
theorem assignment_probability_error_paths :
    calculate_assignment_probability 100 0 1 0 1 .put = none
    ∧ calculate_assignment_probability (-1) 1 1 0 1 .put = some none := by
  constructor
  · rw [calculate_assignment_probability, if_neg (by norm_num : ¬(1 : ℝ) ≤ 0),
      if_pos rfl]
  · rw [calculate_assignment_probability, if_neg (by norm_num : ¬(1 : ℝ) ≤ 0),
      if_neg (by norm_num : ¬(1 : ℝ) = 0),
      if_pos (by norm_num : (-1 : ℝ) / 1 < 0)]

/-! ### Implied volatility solver -/

/-- `OptionsCalculator.calculate_implied_volatility`. The call
`scipy.optimize.minimize_scalar(objective, bounds=(0.01, 5.0),
method='bounded')` is external library code; `result` models its outcome:
`none` when the call raises (caught by the bare `except:`), `some (x, success)`
for a returned `OptimizeResult` with fields `.x` and `.success`. The method
returns `result.x if result.success else 0.3`, and `0.3` on exception. -/
noncomputable def calculate_implied_volatility
    (market_price S K T r : ℝ) (option_type : OptionType)
    (result : Option (ℝ × Bool)) : ℝ :=
  match result with
  | none => 0.3
  | some (x, true) => x
  | some (_, false) => 0.3

/-- C3. Solver contract. First conjunct: whenever the bounded minimizer
either fails, raises, or returns a point inside its bracket `[0.01, 5.0]`
(which the bounded method guarantees), the returned volatility lies in
`[0.01, 5.0]`. Remaining conjuncts, the failure policy: when the minimizer
raises (`none`) the solver returns the default volatility `0.3` instead of
propagating the exception, and when it reports non-convergence
(`success = false`) the solver likewise returns `0.3` — every outcome yields
a value, so the function never raises. -/
theorem implied_volatility_contract (market_price S K T r : ℝ)
    (option_type : OptionType) (result : Option (ℝ × Bool))
    (hbounded : ∀ x, result = some (x, true) → 0.01 ≤ x ∧ x ≤ 5.0) :
    (0.01 ≤ calculate_implied_volatility market_price S K T r option_type result
      ∧ calculate_implied_volatility market_price S K T r option_type result ≤ 5.0)
    ∧ calculate_implied_volatility market_price S K T r option_type none = 0.3
    ∧ (∀ x : ℝ, calculate_implied_volatility market_price S K T r option_type
        (some (x, false)) = 0.3) := by
  refine ⟨?_, rfl, fun x => rfl⟩
  rcases result with _ | ⟨x, b⟩
  · norm_num [calculate_implied_volatility]
  · cases b
    · norm_num [calculate_implied_volatility]
    · exact hbounded x rfl

/-- Witness for C3: the exception path and the non-convergence path both
return the default `0.3 ∈ [0.01, 5.0]`. -/
theorem implied_volatility_contract_witness :
    (0.01 ≤ calculate_implied_volatility 1 100 100 1 0.05 .put none
      ∧ calculate_implied_volatility 1 100 100 1 0.05 .put none ≤ 5.0)
    ∧ calculate_implied_volatility 1 100 100 1 0.05 .put none = 0.3
    ∧ calculate_implied_volatility 1 100 100 1 0.05 .put (some (2, false)) = 0.3 := by
  have h := implied_volatility_contract 1 100 100 1 0.05 .put none
    (fun x hx => Option.noConfusion hx)
  exact ⟨h.1, h.2.1, h.2.2 2⟩

/-! ### Annualized return (cash-secured-put variant) -/

/-- `OptionsCalculator.calculate_annualized_return`, over exact rationals.
Returns `0.0` when `dte <= 0 or option_price <= 0`; otherwise Python
evaluates `(option_price / strike_price) * (365 / dte)`, which raises
`ZeroDivisionError` when `strike_price` is zero — a raise is modelled as
`none`, a returned value as `some`. (`365 / dte` is safe: `dte > 0` there.) -/
def calculate_annualized_return (option_price strike_price : ℚ) (dte : ℤ) :
    Option ℚ :=
  if dte ≤ 0 ∨ option_price ≤ 0 then some 0
  else if strike_price = 0 then none
  else some (option_price / strike_price * (365 / (dte : ℚ)))

/-- C4 (amended). The zero-guard and the formula hold, but the function does
raise (`ZeroDivisionError`) when `strike_price = 0` with `dte > 0` and
`option_price > 0`; it never raises when `strike_price ≠ 0`. -/
theorem annualized_return_spec (option_price strike_price : ℚ) (dte : ℤ) :
    (dte ≤ 0 ∨ option_price ≤ 0 →
      calculate_annualized_return option_price strike_price dte = some 0)
    ∧ (0 < dte → 0 < option_price → strike_price ≠ 0 →
      calculate_annualized_return option_price strike_price dte
        = some (option_price / strike_price * (365 / (dte : ℚ))))
    ∧ (0 < dte → 0 < option_price → strike_price = 0 →
      calculate_annualized_return option_price strike_price dte = none) := by
  refine ⟨fun h => ?_, fun h1 h2 h3 => ?_, fun h1 h2 h3 => ?_⟩
  · rw [calculate_annualized_return, if_pos h]
  · rw [calculate_annualized_return, if_neg (by push_neg; exact ⟨h1, h2⟩), if_neg h3]
  · rw [calculate_annualized_return, if_neg (by push_neg; exact ⟨h1, h2⟩), if_pos h3]

/-- Witness for C4 (amended): the three branches at concrete inputs. -/
theorem annualized_return_spec_witness :
    calculate_annualized_return 1 4 0 = some 0
    ∧ calculate_annualized_return 2 4 73 = some (2 / 4 * (365 / ((73 : ℤ) : ℚ)))
    ∧ calculate_annualized_return 2 0 73 = none :=
  ⟨(annualized_return_spec 1 4 0).1 (Or.inl le_rfl),
    (annualized_return_spec 2 4 73).2.1 (by norm_num) (by norm_num) (by norm_num),
    (annualized_return_spec 2 0 73).2.2 (by norm_num) (by norm_num) rfl⟩

/-- C4 counterexample: with `strike_price = 0`, `option_price = 1 > 0` and
`dte = 30 > 0` the division `option_price / strike_price` raises
`ZeroDivisionError` in Python — the function does not return. -/
theorem annualized_return_zero_strike_raises :
    calculate_annualized_return 1 0 30 = none := by decide

/-! ### Screening & ranking pipeline (`src/pages/1_单股票期权分析.py` and
`src/pages/3_Sell_Call策略.py`) -/

/-- One row of the per-contract analytics table `results_df`, restricted to
the columns the screening step reads. -/
structure OptionRow where
  annualized_return : ℚ
  assignment_probability : ℚ
  volume : ℚ
  dte : ℤ
  strike_price : ℚ
deriving DecidableEq, Repr

/-- The screening conjunction applied to `results_df`:
`annualized_return >= min_annual_return`,
`assignment_probability <= max_assignment_prob`, `volume >= min_volume`,
`dte <= max_dte`, and the out-of-the-money test
(`strike_price < spot` on the put page, `strike_price > spot` on the
sell-call page). -/
def passes_criteria (option_type : OptionType)
    (spot min_annual_return max_assignment_prob min_volume : ℚ)
    (max_dte : ℤ) (row : OptionRow) : Bool :=
  decide (min_annual_return ≤ row.annualized_return)
    && decide (row.assignment_probability ≤ max_assignment_prob)
    && decide (min_volume ≤ row.volume)
    && decide (row.dte ≤ max_dte)
    && (match option_type with
        | .put => decide (row.strike_price < spot)
        | .call => decide (spot < row.strike_price))

/-- Ascending comparison on the sort key `annualized_return`. -/
def arRel (a b : OptionRow) : Prop :=
  a.annualized_return ≤ b.annualized_return

instance arRel_decidable : DecidableRel arRel :=
  fun a b => inferInstanceAs (Decidable (a.annualized_return ≤ b.annualized_return))

instance arRel_total : IsTotal OptionRow arRel :=
  ⟨fun _ _ => le_total _ _⟩

instance arRel_trans : IsTrans OptionRow arRel :=
  ⟨fun _ _ _ h1 h2 => le_trans h1 h2⟩

/-- The screening and ranking step: the boolean-mask filter followed by
`sort_values('annualized_return', ascending=False)`. pandas implements a
descending `sort_values` as an ascending argsort whose index array is then
reversed; the ascending argsort is modelled as a stable insertion sort
(numpy's default sort resolves ties arbitrarily in general and is exactly
insertion sort — hence stable — on partitions of at most 16 elements). -/
def screen_options (option_type : OptionType)
    (spot min_annual_return max_assignment_prob min_volume : ℚ)
    (max_dte : ℤ) (rows : List OptionRow) : List OptionRow :=
  (List.insertionSort arRel
    (rows.filter
      (passes_criteria option_type spot min_annual_return max_assignment_prob
        min_volume max_dte))).reverse

/-- C7 (amended). The screened result contains exactly the input rows
satisfying the conjunction and is ordered by annualized return descending;
but rows of equal annualized return appear in *reversed* input order (pandas
reverses an ascending argsort to implement a descending sort), so when all
surviving rows tie the output is exactly the reversed filtered input. -/
theorem screen_options_spec (option_type : OptionType)
    (spot minar maxap minvol : ℚ) (maxdte : ℤ) (rows : List OptionRow) :
    (screen_options option_type spot minar maxap minvol maxdte rows).Perm
      (rows.filter (passes_criteria option_type spot minar maxap minvol maxdte))
    ∧ (screen_options option_type spot minar maxap minvol maxdte rows).Pairwise
      (fun a b => b.annualized_return ≤ a.annualized_return)
    ∧ ((∀ a ∈ rows.filter (passes_criteria option_type spot minar maxap minvol maxdte),
        ∀ b ∈ rows.filter (passes_criteria option_type spot minar maxap minvol maxdte),
          a.annualized_return = b.annualized_return) →
      screen_options option_type spot minar maxap minvol maxdte rows
        = (rows.filter (passes_criteria option_type spot minar maxap minvol maxdte)).reverse) := by
  refine ⟨?_, ?_, ?_⟩
  · exact (List.reverse_perm _).trans (List.perm_insertionSort arRel _)
  · rw [screen_options]
    exact List.pairwise_reverse.mpr (List.sorted_insertionSort arRel _)
  · intro hall
    have hsorted : (rows.filter
        (passes_criteria option_type spot minar maxap minvol maxdte)).Sorted arRel :=
      List.pairwise_of_forall_mem_list fun a ha b hb => le_of_eq (hall a ha b hb)
    rw [screen_options, hsorted.insertionSort_eq]

/-- Witness for C7 (amended) on a two-row all-tied table. -/
theorem screen_options_spec_witness :
    (screen_options .put 100 0 1 0 30
        [⟨1, 0, 10, 10, 50⟩, ⟨1, 0, 10, 10, 60⟩]).Perm
      (List.filter (passes_criteria .put 100 0 1 0 30)
        [⟨1, 0, 10, 10, 50⟩, ⟨1, 0, 10, 10, 60⟩])
    ∧ (screen_options .put 100 0 1 0 30
        [⟨1, 0, 10, 10, 50⟩, ⟨1, 0, 10, 10, 60⟩]).Pairwise
      (fun a b => b.annualized_return ≤ a.annualized_return)
    ∧ screen_options .put 100 0 1 0 30
        [⟨1, 0, 10, 10, 50⟩, ⟨1, 0, 10, 10, 60⟩]
      = (List.filter (passes_criteria .put 100 0 1 0 30)
        [⟨1, 0, 10, 10, 50⟩, ⟨1, 0, 10, 10, 60⟩]).reverse := by
  have h := screen_options_spec .put 100 0 1 0 30
    [⟨1, 0, 10, 10, 50⟩, ⟨1, 0, 10, 10, 60⟩]
  exact ⟨h.1, h.2.1, h.2.2 (by decide)⟩

/-- C7 counterexample: two surviving rows with equal annualized return come
out in reversed input order, not in their relative input order. -/
theorem screen_options_tie_reversed :
    screen_options .put 100 0 1 0 30 [⟨1, 0, 10, 10, 50⟩, ⟨1, 0, 10, 10, 60⟩]
      ≠ [⟨1, 0, 10, 10, 50⟩, ⟨1, 0, 10, 10, 60⟩] := by
  decide

/-! ### Contract normalizer (`src/data_fetcher.py::DataFetcher.validate_option_data`) -/

/-- One row of a raw option-chain DataFrame; `none` models a missing (NaN)
cell. Only the columns read by the normalizer are modelled. -/
structure RawRow where
  strike_price : Option ℚ
  option_price : Option ℚ
  dte : Option ℚ
  volume : Option ℚ
  implied_volatility : Option ℚ
deriving DecidableEq, Repr

/-- A raw option-chain DataFrame: which columns are present, plus the rows.
When a `has…` flag is `false` that column is absent and the corresponding
per-row field is meaningless. -/
structure RawTable where
  hasStrike : Bool
  hasPrice : Bool
  hasDte : Bool
  hasVolume : Bool
  hasIV : Bool
  rows : List RawRow
deriving DecidableEq, Repr

/-- Python `int(...)` / `.astype(int)` truncation toward zero. -/
def pyTrunc (q : ℚ) : ℤ :=
  if 0 ≤ q then ⌊q⌋ else ⌈q⌉

/-- The row pipeline of `DataFetcher.validate_option_data` after the
mandatory-column guards, with the column-presence flags as parameters:
1. backfill `dte = 30` when the column is absent;
2. `dropna(subset=['strike_price', 'option_price', 'dte'])`;
3. keep `option_price > 0`;
4. if `volume` present keep `volume >= 1` (a NaN comparison is `False`, so
   null-volume rows drop), else synthesize `volume = 100`;
5. if `implied_volatility` present keep `implied_volatility <= 5.0` (again a
   NaN comparison is `False`, so null-IV rows drop here) and then
   `fillna(0.3)` (a no-op at this point), else synthesize it at `0.3`;
6. `pd.to_numeric(..., errors='coerce')` is a no-op in this exact-numeric
   model; `dte.astype(int)` truncates toward zero;
7. final `dropna(subset=['strike_price', 'option_price', 'dte'])`. -/
def validate_rows (hasDte hasVolume hasIV : Bool) (rows : List RawRow) :
    List RawRow :=
  let rows1 := if hasDte then rows else rows.map fun r => { r with dte := some 30 }
  let rows2 := rows1.filter fun r =>
    r.strike_price.isSome && r.option_price.isSome && r.dte.isSome
  let rows3 := rows2.filter fun r =>
    match r.option_price with
    | some p => decide (0 < p)
    | none => false
  let rows4 := if hasVolume then
      rows3.filter fun r =>
        match r.volume with
        | some v => decide (1 ≤ v)
        | none => false
    else rows3.map fun r => { r with volume := some 100 }
  let rows5 := if hasIV then
      (rows4.filter fun r =>
        match r.implied_volatility with
        | some v => decide (v ≤ 5)
        | none => false).map fun r =>
          { r with implied_volatility := some (r.implied_volatility.getD (3 / 10)) }
    else rows4.map fun r => { r with implied_volatility := some (3 / 10) }
  let rows6 := rows5.map fun r =>
    { r with dte := r.dte.map fun q => ((pyTrunc q : ℤ) : ℚ) }
  rows6.filter fun r =>
    r.strike_price.isSome && r.option_price.isSome && r.dte.isSome

/-- `DataFetcher.validate_option_data`: an empty chain is returned as is;
a missing `strike_price` or `option_price` column disqualifies the table
(`pd.DataFrame()`); otherwise the row pipeline `validate_rows` runs and the
result has all five modelled columns present. -/
def validate_option_data (t : RawTable) : RawTable :=
  if t.rows = [] then t
  else if t.hasStrike = false then ⟨false, false, false, false, false, []⟩
  else if t.hasPrice = false then ⟨false, false, false, false, false, []⟩
  else ⟨true, true, true, true, true, validate_rows t.hasDte t.hasVolume t.hasIV t.rows⟩

/-- Backfilling a missing days-to-expiry column with 30 is equivalent to
running the pipeline with the column present and every value 30. -/
theorem validate_rows_no_dte (hV hIV : Bool) (rows : List RawRow) :
    validate_rows false hV hIV rows
      = validate_rows true hV hIV (rows.map fun r => { r with dte := some 30 }) :=
  rfl

/-- Every row surviving `validate_rows` has non-null strike, price and
days-to-expiry, and a strictly positive option price. -/
theorem validate_rows_mem (hD hV hIV : Bool) (rows : List RawRow) (r : RawRow)
    (hr : r ∈ validate_rows hD hV hIV rows) :
    r.strike_price.isSome = true ∧ r.option_price.isSome = true
      ∧ r.dte.isSome = true ∧ 0 < r.option_price.getD 0 := by
  simp only [validate_rows, List.mem_filter, List.mem_map, Bool.and_eq_true] at hr
  obtain ⟨⟨r5, hr5, rfl⟩, ⟨hst, hpr⟩, hdt⟩ := hr
  refine ⟨hst, hpr, hdt, ?_⟩
  have hprice : ∃ r3 : RawRow, (match r3.option_price with
      | some p => decide (0 < p)
      | none => false) = true ∧ r5.option_price = r3.option_price := by
    cases hIV with
    | true =>
      rw [if_pos rfl] at hr5
      simp only [List.mem_map, List.mem_filter] at hr5
      obtain ⟨r4, ⟨hr4, _⟩, rfl⟩ := hr5
      cases hV with
      | true =>
        rw [if_pos rfl] at hr4
        simp only [List.mem_filter] at hr4
        exact ⟨r4, hr4.1.2, rfl⟩
      | false =>
        rw [if_neg (by simp)] at hr4
        simp only [List.mem_map] at hr4
        obtain ⟨r3, hr3, rfl⟩ := hr4
        simp only [List.mem_filter] at hr3
        exact ⟨r3, hr3.2, rfl⟩
    | false =>
      rw [if_neg (by simp)] at hr5
      simp only [List.mem_map] at hr5
      obtain ⟨r4, hr4, rfl⟩ := hr5
      cases hV with
      | true =>
        rw [if_pos rfl] at hr4
        simp only [List.mem_filter] at hr4
        exact ⟨r4, hr4.1.2, rfl⟩
      | false =>
        rw [if_neg (by simp)] at hr4
        simp only [List.mem_map] at hr4
        obtain ⟨r3, hr3, rfl⟩ := hr4
        simp only [List.mem_filter] at hr3
        exact ⟨r3, hr3.2, rfl⟩
  obtain ⟨r3, hcond, hpeq⟩ := hprice
  show 0 < r5.option_price.getD 0
  rw [hpeq]
  cases ho : r3.option_price with
  | none => rw [ho] at hcond; exact absurd hcond (by simp)
  | some p => rw [ho] at hcond; simpa using hcond

/-- C8. Mandatory-field policy of the contract normalizer: a missing
strike-price or option-price column empties the table; a missing
days-to-expiry column is backfilled with the 30-day default (the result is
that of the same table with the column present at 30, so no row is lost to
the missing column); and every surviving row has non-null
strike/price/expiry and option price `> 0`. -/
theorem validate_mandatory_fields (t : RawTable) :
    ((t.hasStrike = false ∨ t.hasPrice = false) → (validate_option_data t).rows = [])
    ∧ (t.hasStrike = true → t.hasPrice = true → t.hasDte = false →
        (validate_option_data t).rows
          = (validate_option_data
              { t with
                hasDte := true
                rows := t.rows.map (fun r => { r with dte := some 30 }) }).rows)
    ∧ (∀ r ∈ (validate_option_data t).rows,
        r.strike_price.isSome = true ∧ r.option_price.isSome = true
          ∧ r.dte.isSome = true ∧ 0 < r.option_price.getD 0) := by
  refine ⟨?_, ?_, ?_⟩
  · intro h
    rw [validate_option_data]
    by_cases he : t.rows = []
    · rw [if_pos he]; exact he
    · rw [if_neg he]
      by_cases hs : t.hasStrike = false
      · rw [if_pos hs]
      · rw [if_neg hs]
        rcases h with h | h
        · exact absurd h hs
        · rw [if_pos h]
  · intro hs hp hd
    by_cases he : t.rows = []
    · simp [validate_option_data, he]
    · simp [validate_option_data, he, hs, hp, hd, validate_rows_no_dte]
  · intro r hr
    rw [validate_option_data] at hr
    by_cases he : t.rows = []
    · rw [if_pos he, he] at hr
      exact absurd hr (List.not_mem_nil r)
    · rw [if_neg he] at hr
      by_cases hst : t.hasStrike = false
      · rw [if_pos hst] at hr
        exact absurd hr (List.not_mem_nil r)
      · rw [if_neg hst] at hr
        by_cases hpr : t.hasPrice = false
        · rw [if_pos hpr] at hr
          exact absurd hr (List.not_mem_nil r)
        · rw [if_neg hpr] at hr
          exact validate_rows_mem _ _ _ _ _ hr

/-- Witness for C8 on concrete one-row tables (missing price column, missing
dte column, and a fully-populated table). -/
theorem validate_mandatory_fields_witness :
    (validate_option_data ⟨true, false, true, true, true,
        [⟨some 100, some 1, some 30, some 10, some 1⟩]⟩).rows = []
    ∧ (validate_option_data ⟨true, true, false, true, true,
        [⟨some 100, some 1, none, some 10, some 1⟩]⟩).rows
      = (validate_option_data
          { (⟨true, true, false, true, true,
              [⟨some 100, some 1, none, some 10, some 1⟩]⟩ : RawTable) with
            hasDte := true
            rows := (⟨true, true, false, true, true,
              [⟨some 100, some 1, none, some 10, some 1⟩]⟩ : RawTable).rows.map
              (fun r => { r with dte := some 30 }) }).rows
    ∧ (∀ r ∈ (validate_option_data ⟨true, true, true, true, true,
        [⟨some 100, some 1, some 30, some 10, some 1⟩]⟩).rows,
        r.strike_price.isSome = true ∧ r.option_price.isSome = true
          ∧ r.dte.isSome = true ∧ 0 < r.option_price.getD 0) :=
  ⟨(validate_mandatory_fields _).1 (Or.inr rfl),
    (validate_mandatory_fields _).2.1 rfl rfl rfl,
    (validate_mandatory_fields _).2.2⟩

/-- C9 evaluation at the failing input: a row with all mandatory fields
present but a missing implied volatility is dropped by the
`implied_volatility <= 5.0` outlier filter (NaN comparisons are `False` in
pandas) *before* `fillna(0.3)` runs, so the normalizer returns an empty
table instead of the row with IV backfilled to 0.30. -/
theorem validate_iv_missing_dropped :
    (validate_option_data ⟨true, true, true, true, true,
        [⟨some 100, some 1, some 30, some 10, none⟩]⟩).rows = [] := by
  decide
